import Mathlib

/-!
Crazyflie LQR angle helpers and the cmd_vel converter.

A shallow embedding of

* the static helpers of `CrazyflieLQR` (`crazyflie_lqr.h`, lines 78-95):
  `DegreesToRadians`, `RadiansToDegrees`, `WrapAngleDegrees`, `WrapAngleRadians`;
* the flight gate of `CmdVelConverter` (`cmd_vel_converter.cpp`, lines 102-135):
  `ControlCallback`, `TakeoffService`, `LandService`.  The two service handlers
  are declared `bool` and contain no `return` statement; their bodies are
  embedded with an explicit outcome that records control flowing off the end.

Scalars (`double` in the source) are elements of an arbitrary linearly ordered
field with a floor function, so every definition can be run over `ℚ` and the
theorems can be read over `ℝ`.  The constant `M_PI` of `<math.h>` is not part of
the repository and is passed as a parameter; the theorems instantiate it with
`Real.pi`.
-/

namespace Crazyflie

section AngleUtil

variable {α : Type*} [LinearOrderedField α] [FloorRing α]

/-- Rounding toward zero, the integer quotient used by `std::fmod`. -/
def trunc (x : α) : ℤ :=
  if 0 ≤ x then ⌊x⌋ else ⌈x⌉

/-- The C library remainder `std::fmod(x, y)`: `x - n * y` where `n` is `x / y`
rounded toward zero, so the result has the sign of `x` and magnitude below `|y|`. -/
def fmod (x y : α) : α :=
  x - (trunc (x / y) : α) * y

/-- Source line 78: `return d * M_PI / 180.0;` -/
def DegreesToRadians (M_PI : α) (d : α) : α :=
  d * M_PI / 180

/-- Source line 79: `return r * 180.0 / M_PI;` -/
def RadiansToDegrees (M_PI : α) (r : α) : α :=
  r * 180 / M_PI

/-- Source lines 80-87:
`d = std::fmod(d + 180.0, 360.0) - 180.0; if (d < -180.0) d += 180.0; return d;` -/
def WrapAngleDegrees (d : α) : α :=
  let d := fmod (d + 180) 360 - 180
  if d < -180 then d + 180 else d

/-- Source lines 88-95:
`r = std::fmod(r + M_PI, 2.0 * M_PI) - M_PI; if (r < -M_PI) r += 2.0 * M_PI; return r;` -/
def WrapAngleRadians (M_PI : α) (r : α) : α :=
  let r := fmod (r + M_PI) (2 * M_PI) - M_PI
  if r < -M_PI then r + 2 * M_PI else r

/-- The reference definition in the words of the specification (section 4.2):
`((d + 180) mod 360) - 180`, adding 360 when the result is still below -180. -/
def wrapAngleDegreesSpec (d : α) : α :=
  let y := fmod (d + 180) 360 - 180
  if y < -180 then y + 360 else y

end AngleUtil

section CmdVel

variable {α : Type*}

/-- The `control` field of `crazyflie_msgs::ControlStamped`, as read by `ControlCallback`. -/
structure Control (α : Type*) where
  roll : α
  pitch : α
  yaw_dot : α
  thrust : α

/-- The message type `geometry_msgs::Vector3`. -/
structure Vector3 (α : Type*) where
  x : α
  y : α
  z : α

/-- The message type `geometry_msgs::Twist`. -/
structure Twist (α : Type*) where
  linear : Vector3 α
  angular : Vector3 α

/-- A default-constructed `geometry_msgs::Twist`: every field is zero. -/
def Twist.init [Zero α] : Twist α :=
  ⟨⟨0, 0, 0⟩, ⟨0, 0, 0⟩⟩

/-- The mutable state of `CmdVelConverter` that the callbacks read or write. -/
structure CmdVelConverter where
  in_flight_ : Bool
  deriving DecidableEq, Repr

/-- Source lines 102-121: builds the twist that `cmd_vel_pub_` publishes.
`ThrustToPwmDouble` stands for `crazyflie_utils::pwm::ThrustToPwmDouble`, which
is not part of the two source files. -/
def ControlCallback [Zero α] [Neg α] (ThrustToPwmDouble : α → α)
    (self : CmdVelConverter) (msg : Control α) : Twist α :=
  let twist : Twist α := Twist.init
  if self.in_flight_ then
    let twist := { twist with linear := { twist.linear with y := msg.roll } }
    let twist := { twist with linear := { twist.linear with x := -msg.pitch } }
    let twist := { twist with angular := { twist.angular with z := msg.yaw_dot } }
    let twist := { twist with
      linear := { twist.linear with z := ThrustToPwmDouble msg.thrust } }
    twist
  else
    let twist := { twist with linear := { twist.linear with y := 0 } }
    let twist := { twist with linear := { twist.linear with x := 0 } }
    let twist := { twist with angular := { twist.angular with z := 0 } }
    let twist := { twist with linear := { twist.linear with z := 0 } }
    twist

/-- How the body of a value-returning C++ function ends: a `return` statement
was reached with a value, or control flowed off the closing brace, which for a
function declared `bool` is undefined behaviour, so the caller obtains neither a
value nor a defined continuation. `state` is the object as the body left it. -/
inductive Outcome (σ ρ : Type) where
  | returned (value : ρ) (state : σ)
  | flowedOffEnd (state : σ)
  deriving DecidableEq, Repr

/-- Source lines 124-128, declared `bool`: the body logs, executes
`in_flight_ = true;` and reaches the closing brace without a `return`. -/
def TakeoffService (self : CmdVelConverter) : Outcome CmdVelConverter Bool :=
  let self := { self with in_flight_ := true }
  Outcome.flowedOffEnd self

/-- Source lines 131-135, declared `bool`: the body logs, executes
`in_flight_ = false;` and reaches the closing brace without a `return`. -/
def LandService (self : CmdVelConverter) : Outcome CmdVelConverter Bool :=
  let self := { self with in_flight_ := false }
  Outcome.flowedOffEnd self

/-- A request on one of the two advertised services, `/takeoff` or `/land`. -/
inductive Request where
  | takeoff
  | land
  deriving DecidableEq, Repr

/-- The handler registered for a request (source lines 92-96). -/
def handler : Request → CmdVelConverter → Outcome CmdVelConverter Bool
  | Request.takeoff => TakeoffService
  | Request.land => LandService

/-- Dispatch of one service request: the converter continues with the state
the handler left only when the handler returned; otherwise there is no defined
state to continue from. -/
def serve (self : CmdVelConverter) (q : Request) : Option CmdVelConverter :=
  match handler q self with
  | Outcome.returned _ state => some state
  | Outcome.flowedOffEnd _ => none

/-- The converter after a sequence of service requests, oldest first; `none`
as soon as one request has no defined outcome. -/
def serveAll (self : CmdVelConverter) : List Request → Option CmdVelConverter
  | [] => some self
  | q :: reqs =>
    match serve self q with
    | some next => serveAll next reqs
    | none => none

/-- The twist published for a control message that arrives after a sequence of
service requests, when the program state at that point is defined. -/
def publishAfter [Zero α] [Neg α] (ThrustToPwmDouble : α → α)
    (self : CmdVelConverter) (reqs : List Request) (msg : Control α) : Option (Twist α) :=
  match serveAll self reqs with
  | some conv => some (ControlCallback ThrustToPwmDouble conv msg)
  | none => none

end CmdVel

/-! ## Lemmas on the truncated remainder -/

section FmodLemmas

variable {α : Type*} [LinearOrderedField α] [FloorRing α]

theorem fmod_eq_sub_mul_of_nonneg {x y : α} (k : ℤ) (hy : 0 < y) (hx : 0 ≤ x)
    (h0 : 0 ≤ x - (k : α) * y) (h1 : x - (k : α) * y < y) :
    fmod x y = x - (k : α) * y := by
  have hq : 0 ≤ x / y := div_nonneg hx hy.le
  have hk : ⌊x / y⌋ = k := by
    rw [Int.floor_eq_iff]
    constructor
    · rw [le_div_iff₀ hy]; linarith
    · rw [div_lt_iff₀ hy]; linarith
  simp only [fmod, trunc, if_pos hq, hk]

theorem fmod_eq_sub_mul_of_nonpos {x y : α} (k : ℤ) (hy : 0 < y) (hx : x ≤ 0)
    (h0 : -y < x - (k : α) * y) (h1 : x - (k : α) * y ≤ 0) :
    fmod x y = x - (k : α) * y := by
  have hk : ⌈x / y⌉ = k := by
    rw [Int.ceil_eq_iff]
    constructor
    · rw [lt_div_iff₀ hy]; linarith
    · rw [div_le_iff₀ hy]; linarith
  rcases eq_or_lt_of_le hx with h | h
  · subst h
    have hk0 : k = 0 := by
      have : ⌈(0 : α) / y⌉ = 0 := by simp
      rw [← hk, this]
    subst hk0
    simp [fmod, trunc]
  · have hq : ¬ 0 ≤ x / y := not_le.mpr (div_neg_of_neg_of_pos h hy)
    simp only [fmod, trunc, if_neg hq, hk]

/-- For a nonnegative dividend the remainder is `x - k * y` with `k` an integer
and lies in `[0, y)`. -/
theorem fmod_of_nonneg {x y : α} (hy : 0 < y) (hx : 0 ≤ x) :
    ∃ k : ℤ, fmod x y = x - (k : α) * y ∧ 0 ≤ fmod x y ∧ fmod x y < y := by
  have hq : 0 ≤ x / y := div_nonneg hx hy.le
  have e : fmod x y = x - (⌊x / y⌋ : α) * y := by simp only [fmod, trunc, if_pos hq]
  have h1 : (⌊x / y⌋ : α) * y ≤ x := (le_div_iff₀ hy).mp (Int.floor_le _)
  have h2 : x < ((⌊x / y⌋ : α) + 1) * y := (div_lt_iff₀ hy).mp (Int.lt_floor_add_one _)
  refine ⟨⌊x / y⌋, e, ?_, ?_⟩
  · rw [e]; linarith
  · rw [e]; linarith

/-- For a negative dividend the remainder is `x - k * y` with `k` an integer and
lies in `(-y, 0]`. -/
theorem fmod_of_neg {x y : α} (hy : 0 < y) (hx : x < 0) :
    ∃ k : ℤ, fmod x y = x - (k : α) * y ∧ -y < fmod x y ∧ fmod x y ≤ 0 := by
  have hq : ¬ 0 ≤ x / y := not_le.mpr (div_neg_of_neg_of_pos hx hy)
  have e : fmod x y = x - (⌈x / y⌉ : α) * y := by simp only [fmod, trunc, if_neg hq]
  have h1 : x ≤ (⌈x / y⌉ : α) * y := (div_le_iff₀ hy).mp (Int.le_ceil _)
  have h2 : ((⌈x / y⌉ : α) - 1) * y < x := by
    have := Int.ceil_lt_add_one (x / y)
    have h3 : (⌈x / y⌉ : α) - 1 < x / y := by linarith
    exact (lt_div_iff₀ hy).mp h3
  refine ⟨⌈x / y⌉, e, ?_, ?_⟩
  · rw [e]; linarith
  · rw [e]; linarith

end FmodLemmas

/-! ## Representatives modulo a period -/

section Period

variable {α : Type*} [LinearOrderedField α]

/-- Two points of `[-p, p)` that differ by an integer multiple of `2 * p` are equal. -/
theorem eq_of_sub_eq_int_mul_period {p a b : α} (hp : 0 < p)
    (ha0 : -p ≤ a) (ha1 : a < p) (hb0 : -p ≤ b) (hb1 : b < p)
    (k : ℤ) (h : a - b = (k : α) * (2 * p)) : a = b := by
  have h2p : (0 : α) < 2 * p := by linarith
  have hlt : (k : α) * (2 * p) < 1 * (2 * p) := by rw [← h]; linarith
  have hgt : (-1 : α) * (2 * p) < (k : α) * (2 * p) := by rw [← h]; linarith
  have k1 : (k : α) < 1 := lt_of_mul_lt_mul_right hlt h2p.le
  have k2 : (-1 : α) < (k : α) := lt_of_mul_lt_mul_right hgt h2p.le
  have k1z : k < 1 := by exact_mod_cast k1
  have k2z : -1 < k := by exact_mod_cast k2
  have hk : k = 0 := by omega
  rw [hk] at h
  simp at h
  linarith

end Period

/-! ## Lemmas on the two wrap functions -/

section WrapLemmas

variable {α : Type*} [LinearOrderedField α] [FloorRing α]

/-- Evaluation of `WrapAngleDegrees` where `d + 180` is nonnegative: the
remainder is already in `[0, 360)` and no correction is applied. -/
theorem WrapAngleDegrees_eq_of_nonneg {d : α} (k : ℤ) (hd : 0 ≤ d + 180)
    (h0 : 0 ≤ d + 180 - (k : α) * 360) (h1 : d + 180 - (k : α) * 360 < 360) :
    WrapAngleDegrees d = d - (k : α) * 360 := by
  have e := fmod_eq_sub_mul_of_nonneg k (by norm_num : (0 : α) < 360) hd h0 h1
  have hn : ¬ (d + 180 - (k : α) * 360 - 180 < -180) := by
    rw [not_lt]; linarith
  simp only [WrapAngleDegrees, e, if_neg hn]
  ring

/-- Evaluation of `WrapAngleDegrees` where `d + 180` is negative and not a
multiple of 360: the remainder is in `(-360, 0)` and the correction adds 180. -/
theorem WrapAngleDegrees_eq_of_neg {d : α} (k : ℤ) (hd : d + 180 ≤ 0)
    (h0 : -360 < d + 180 - (k : α) * 360) (h1 : d + 180 - (k : α) * 360 < 0) :
    WrapAngleDegrees d = d - (k : α) * 360 + 180 := by
  have e := fmod_eq_sub_mul_of_nonpos k (by norm_num : (0 : α) < 360) hd h0 h1.le
  have hn : d + 180 - (k : α) * 360 - 180 < -180 := by linarith
  simp only [WrapAngleDegrees, e, if_pos hn]
  ring

/-- On inputs not below -180 the degree wrap subtracts a multiple of 360 and
lands in `[-180, 180)`. -/
theorem WrapAngleDegrees_of_ge {d : α} (hd : -180 ≤ d) :
    ∃ k : ℤ, WrapAngleDegrees d = d - (k : α) * 360 ∧
      -180 ≤ WrapAngleDegrees d ∧ WrapAngleDegrees d < 180 := by
  have hx : (0 : α) ≤ d + 180 := by linarith
  obtain ⟨k, e, h0, h1⟩ := fmod_of_nonneg (by norm_num : (0 : α) < 360) hx
  have hn : ¬ (fmod (d + 180) 360 - 180 < -180) := by
    rw [not_lt]; linarith
  have hw : WrapAngleDegrees d = fmod (d + 180) 360 - 180 := by
    simp only [WrapAngleDegrees, if_neg hn]
  refine ⟨k, ?_, ?_, ?_⟩
  · rw [hw, e]; ring
  · rw [hw]; linarith
  · rw [hw]; linarith

/-- The reference definition where `d + 180` is nonnegative. -/
theorem wrapAngleDegreesSpec_eq_of_nonneg {d : α} (k : ℤ) (hd : 0 ≤ d + 180)
    (h0 : 0 ≤ d + 180 - (k : α) * 360) (h1 : d + 180 - (k : α) * 360 < 360) :
    wrapAngleDegreesSpec d = d - (k : α) * 360 := by
  have e := fmod_eq_sub_mul_of_nonneg k (by norm_num : (0 : α) < 360) hd h0 h1
  have hn : ¬ (d + 180 - (k : α) * 360 - 180 < -180) := by
    rw [not_lt]; linarith
  simp only [wrapAngleDegreesSpec, e, if_neg hn]
  ring

/-- The reference definition where `d + 180` is negative and not a multiple of
360: the correction adds 360. -/
theorem wrapAngleDegreesSpec_eq_of_neg {d : α} (k : ℤ) (hd : d + 180 ≤ 0)
    (h0 : -360 < d + 180 - (k : α) * 360) (h1 : d + 180 - (k : α) * 360 < 0) :
    wrapAngleDegreesSpec d = d - (k : α) * 360 + 360 := by
  have e := fmod_eq_sub_mul_of_nonpos k (by norm_num : (0 : α) < 360) hd h0 h1.le
  have hn : d + 180 - (k : α) * 360 - 180 < -180 := by linarith
  simp only [wrapAngleDegreesSpec, e, if_pos hn]
  ring

/-- The radian wrap shifts its argument by an integer number of periods and
lands in `[-M_PI, M_PI)`, for any positive value of the constant. -/
theorem WrapAngleRadians_shift_range {p : α} (hp : 0 < p) (r : α) :
    ∃ m : ℤ, WrapAngleRadians p r = r + (m : α) * (2 * p) ∧
      -p ≤ WrapAngleRadians p r ∧ WrapAngleRadians p r < p := by
  have h2p : (0 : α) < 2 * p := by linarith
  rcases le_or_lt 0 (r + p) with hx | hx
  · obtain ⟨k, e, h0, h1⟩ := fmod_of_nonneg h2p hx
    have hn : ¬ (fmod (r + p) (2 * p) - p < -p) := by
      rw [not_lt]; linarith
    have hw : WrapAngleRadians p r = fmod (r + p) (2 * p) - p := by
      simp only [WrapAngleRadians, if_neg hn]
    refine ⟨-k, ?_, ?_, ?_⟩
    · rw [hw, e]; push_cast; ring
    · rw [hw]; linarith
    · rw [hw]; linarith
  · obtain ⟨k, e, h0, h1⟩ := fmod_of_neg h2p hx
    by_cases hc : fmod (r + p) (2 * p) - p < -p
    · have hw : WrapAngleRadians p r = fmod (r + p) (2 * p) - p + 2 * p := by
        simp only [WrapAngleRadians, if_pos hc]
      refine ⟨-k + 1, ?_, ?_, ?_⟩
      · rw [hw, e]; push_cast; ring
      · rw [hw]; linarith
      · rw [hw]; linarith
    · have hw : WrapAngleRadians p r = fmod (r + p) (2 * p) - p := by
        simp only [WrapAngleRadians, if_neg hc]
      rw [not_lt] at hc
      refine ⟨-k, ?_, ?_, ?_⟩
      · rw [hw, e]; push_cast; ring
      · rw [hw]; linarith
      · rw [hw]; linarith

/-- The radian wrap is the only point of `[-p, p)` congruent to `r` modulo `2 * p`. -/
theorem WrapAngleRadians_unique {p : α} (hp : 0 < p) (r y : α)
    (hy0 : -p ≤ y) (hy1 : y < p) (k : ℤ) (h : y - r = (k : α) * (2 * p)) :
    y = WrapAngleRadians p r := by
  obtain ⟨m, e, h0, h1⟩ := WrapAngleRadians_shift_range hp r
  refine eq_of_sub_eq_int_mul_period hp hy0 hy1 h0 h1 (k - m) ?_
  rw [e]; push_cast
  linear_combination h

/-- Evaluation of `WrapAngleRadians` where `r + p` is negative and the
remainder is nonzero: the correction adds a full period. -/
theorem WrapAngleRadians_eq_of_neg {p r : α} (k : ℤ) (hp : 0 < p) (hd : r + p ≤ 0)
    (h0 : -(2 * p) < r + p - (k : α) * (2 * p)) (h1 : r + p - (k : α) * (2 * p) < 0) :
    WrapAngleRadians p r = r - (k : α) * (2 * p) + 2 * p := by
  have h2p : (0 : α) < 2 * p := by linarith
  have e := fmod_eq_sub_mul_of_nonpos k h2p hd h0 h1.le
  have hn : r + p - (k : α) * (2 * p) - p < -p := by linarith
  simp only [WrapAngleRadians, e, if_pos hn]
  ring

end WrapLemmas

/-! ## The angle helpers over the reals -/

section AngleClaims

open Real

/-- C1 (counterexample): the degree wrap sends 180 to -180, which is outside
the interval (-180, 180]. -/
theorem WrapAngleDegrees_180_not_in_Ioc :
    ¬ (-180 < WrapAngleDegrees (180 : ℝ) ∧ WrapAngleDegrees (180 : ℝ) ≤ 180) := by
  have e : WrapAngleDegrees (180 : ℝ) = 180 - ((1 : ℤ) : ℝ) * 360 :=
    WrapAngleDegrees_eq_of_nonneg 1 (by norm_num) (by norm_num) (by norm_num)
  rw [e]
  norm_num

/-- C1 (amended): for every real angle `a` not below -180, that is wherever the
correction branch is not entered, `WrapAngleDegrees a` lies in the half-open
interval [-180, 180). -/
theorem WrapAngleDegrees_mem_Ico_of_ge (a : ℝ) (h : -180 ≤ a) :
    -180 ≤ WrapAngleDegrees a ∧ WrapAngleDegrees a < 180 := by
  obtain ⟨_, _, h0, h1⟩ := WrapAngleDegrees_of_ge h
  exact ⟨h0, h1⟩

/-- C1 (witness): the amended range statement applied at 190 degrees. -/
theorem WrapAngleDegrees_mem_Ico_of_ge_witness :
    (-180 : ℝ) ≤ 190 ∧
      (-180 ≤ WrapAngleDegrees (190 : ℝ) ∧ WrapAngleDegrees (190 : ℝ) < 180) :=
  ⟨by norm_num, WrapAngleDegrees_mem_Ico_of_ge 190 (by norm_num)⟩

/-- C2 (failing input): at -400 degrees the degree wrap returns -220, and
wrapping that value again returns -40, so the function is not idempotent there. -/
theorem WrapAngleDegrees_twice_at_neg_400 :
    WrapAngleDegrees (-400 : ℝ) = -220 ∧
      WrapAngleDegrees (WrapAngleDegrees (-400 : ℝ)) = -40 := by
  have e1 : WrapAngleDegrees (-400 : ℝ) = -400 - ((0 : ℤ) : ℝ) * 360 + 180 :=
    WrapAngleDegrees_eq_of_neg 0 (by norm_num) (by norm_num) (by norm_num)
  have e2 : WrapAngleDegrees (-220 : ℝ) = -220 - ((0 : ℤ) : ℝ) * 360 + 180 :=
    WrapAngleDegrees_eq_of_neg 0 (by norm_num) (by norm_num) (by norm_num)
  have h1 : WrapAngleDegrees (-400 : ℝ) = -220 := by rw [e1]; norm_num
  refine ⟨h1, ?_⟩
  rw [h1, e2]; norm_num

/-- C3 (failing input): at -190 degrees the source function returns -10 while
the reference definition of the specification returns 170. -/
theorem WrapAngleDegrees_ne_spec_at_neg_190 :
    WrapAngleDegrees (-190 : ℝ) = -10 ∧ wrapAngleDegreesSpec (-190 : ℝ) = 170 := by
  have e1 : WrapAngleDegrees (-190 : ℝ) = -190 - ((0 : ℤ) : ℝ) * 360 + 180 :=
    WrapAngleDegrees_eq_of_neg 0 (by norm_num) (by norm_num) (by norm_num)
  have e2 : wrapAngleDegreesSpec (-190 : ℝ) = -190 - ((0 : ℤ) : ℝ) * 360 + 360 :=
    wrapAngleDegreesSpec_eq_of_neg 0 (by norm_num) (by norm_num) (by norm_num)
  constructor
  · rw [e1]; norm_num
  · rw [e2]; norm_num

/-- C4 (counterexample): the degree wrap of 180 is not 180. -/
theorem WrapAngleDegrees_180_ne_180 : WrapAngleDegrees (180 : ℝ) ≠ 180 := by
  have e : WrapAngleDegrees (180 : ℝ) = 180 - ((1 : ℤ) : ℝ) * 360 :=
    WrapAngleDegrees_eq_of_nonneg 1 (by norm_num) (by norm_num) (by norm_num)
  rw [e]
  norm_num

/-- C4 (amended): the upper boundary of the wrap range is folded onto the lower
one, `WrapAngleDegrees 180 = -180`. -/
theorem WrapAngleDegrees_180_eq_neg_180 : WrapAngleDegrees (180 : ℝ) = -180 := by
  have e : WrapAngleDegrees (180 : ℝ) = 180 - ((1 : ℤ) : ℝ) * 360 :=
    WrapAngleDegrees_eq_of_nonneg 1 (by norm_num) (by norm_num) (by norm_num)
  rw [e]
  norm_num

/-- C5 (failing input): with reference yaw 179 and measured yaw -179 the degree
wrap of the difference is -178, while for measured yaw 181 it is 2; the two
differences are one full turn apart. -/
theorem WrapAngleDegrees_yaw_error_across_boundary :
    WrapAngleDegrees (-179 - 179 : ℝ) = -178 ∧ WrapAngleDegrees (181 - 179 : ℝ) = 2 ∧
      (-179 - 179 : ℝ) = (181 - 179) - 360 := by
  have e1 : WrapAngleDegrees (-179 - 179 : ℝ) = (-179 - 179) - ((0 : ℤ) : ℝ) * 360 + 180 :=
    WrapAngleDegrees_eq_of_neg 0 (by norm_num) (by norm_num) (by norm_num)
  have e2 : WrapAngleDegrees (181 - 179 : ℝ) = (181 - 179) - ((0 : ℤ) : ℝ) * 360 :=
    WrapAngleDegrees_eq_of_nonneg 0 (by norm_num) (by norm_num) (by norm_num)
  refine ⟨?_, ?_, ?_⟩
  · rw [e1]; norm_num
  · rw [e2]; norm_num
  · norm_num

/-- C6 (failing input): at -190 degrees the degree wrap returns -10, while
converting to radians, wrapping there and converting back returns 170. -/
theorem WrapAngleDegrees_ne_WrapAngleRadians_at_neg_190 :
    WrapAngleDegrees (-190 : ℝ) = -10 ∧
      RadiansToDegrees π (WrapAngleRadians π (DegreesToRadians π (-190))) = 170 := by
  have hpi : (0 : ℝ) < π := Real.pi_pos
  have e1 : WrapAngleDegrees (-190 : ℝ) = -190 - ((0 : ℤ) : ℝ) * 360 + 180 :=
    WrapAngleDegrees_eq_of_neg 0 (by norm_num) (by norm_num) (by norm_num)
  have e2 : WrapAngleRadians π (DegreesToRadians π (-190)) =
      DegreesToRadians π (-190) - ((0 : ℤ) : ℝ) * (2 * π) + 2 * π := by
    apply WrapAngleRadians_eq_of_neg 0 hpi
    · simp only [DegreesToRadians]; linarith
    · simp only [DegreesToRadians]; push_cast; linarith
    · simp only [DegreesToRadians]; push_cast; linarith
  constructor
  · rw [e1]; norm_num
  · rw [e2]
    simp only [RadiansToDegrees, DegreesToRadians]
    field_simp
    ring

/-- C7: for every real `x` the radian wrap has magnitude at most pi. -/
theorem WrapAngleRadians_abs_le_pi (x : ℝ) : |WrapAngleRadians π x| ≤ π := by
  obtain ⟨_, _, h0, h1⟩ := WrapAngleRadians_shift_range Real.pi_pos x
  exact abs_le.mpr ⟨h0, h1.le⟩

/-- C8: converting degrees to radians and back is the identity on the reals,
`DegreesToRadians` is multiplication by pi/180, `RadiansToDegrees` is
multiplication by 180/pi, and both are therefore linear. -/
theorem RadiansToDegrees_DegreesToRadians (x : ℝ) :
    RadiansToDegrees π (DegreesToRadians π x) = x ∧
      DegreesToRadians π x = (π / 180) * x ∧
      RadiansToDegrees π x = (180 / π) * x ∧
      (∀ a y : ℝ, DegreesToRadians π (a * x + y) =
        a * DegreesToRadians π x + DegreesToRadians π y) ∧
      (∀ a y : ℝ, RadiansToDegrees π (a * x + y) =
        a * RadiansToDegrees π x + RadiansToDegrees π y) := by
  have hpi : (π : ℝ) ≠ 0 := Real.pi_pos.ne.symm
  refine ⟨?_, ?_, ?_, ?_, ?_⟩
  · simp only [RadiansToDegrees, DegreesToRadians]
    field_simp
  · simp only [DegreesToRadians]; ring
  · simp only [RadiansToDegrees]; ring
  · intro a y; simp only [DegreesToRadians]; ring
  · intro a y; simp only [RadiansToDegrees]; ring

/-- C10: for every real `r`, `WrapAngleRadians r` lies in [-pi, pi), differs
from `r` by an integer multiple of 2 pi, is the only such point, and hence the
radian wrap is idempotent and invariant under shifts by multiples of 2 pi. -/
theorem WrapAngleRadians_unique_representative (r : ℝ) :
    (-π ≤ WrapAngleRadians π r ∧ WrapAngleRadians π r < π) ∧
      (∃ k : ℤ, WrapAngleRadians π r - r = (k : ℝ) * (2 * π)) ∧
      (∀ y : ℝ, -π ≤ y → y < π → (∃ k : ℤ, y - r = (k : ℝ) * (2 * π)) →
        y = WrapAngleRadians π r) ∧
      WrapAngleRadians π (WrapAngleRadians π r) = WrapAngleRadians π r ∧
      (∀ k : ℤ, WrapAngleRadians π (r + (k : ℝ) * (2 * π)) = WrapAngleRadians π r) := by
  have hpi : (0 : ℝ) < π := Real.pi_pos
  obtain ⟨m, e, h0, h1⟩ := WrapAngleRadians_shift_range hpi r
  refine ⟨⟨h0, h1⟩, ⟨m, by rw [e]; ring⟩, ?_, ?_, ?_⟩
  · rintro y hy0 hy1 ⟨k, hk⟩
    exact WrapAngleRadians_unique hpi r y hy0 hy1 k hk
  · exact (WrapAngleRadians_unique hpi _ _ h0 h1 0 (by simp)).symm
  · intro k
    obtain ⟨n, e2, g0, g1⟩ := WrapAngleRadians_shift_range hpi (r + (k : ℝ) * (2 * π))
    refine WrapAngleRadians_unique hpi r _ g0 g1 (n + k) ?_
    rw [e2]; push_cast; ring

end AngleClaims

/-! ## The flight gate of the converter -/

section GateClaims

variable {α : Type*} [Zero α] [Neg α]

/-- The callback alone gates on the flag: with `in_flight_` set the twist is
the remapped message, with it cleared the four written fields are zero. -/
theorem ControlCallback_of_flag (ThrustToPwmDouble : α → α) (msg : Control α) :
    ((ControlCallback ThrustToPwmDouble ⟨true⟩ msg).linear.y = msg.roll ∧
      (ControlCallback ThrustToPwmDouble ⟨true⟩ msg).linear.x = -msg.pitch ∧
      (ControlCallback ThrustToPwmDouble ⟨true⟩ msg).angular.z = msg.yaw_dot ∧
      (ControlCallback ThrustToPwmDouble ⟨true⟩ msg).linear.z =
        ThrustToPwmDouble msg.thrust) ∧
    ((ControlCallback ThrustToPwmDouble ⟨false⟩ msg).linear.x = 0 ∧
      (ControlCallback ThrustToPwmDouble ⟨false⟩ msg).linear.y = 0 ∧
      (ControlCallback ThrustToPwmDouble ⟨false⟩ msg).linear.z = 0 ∧
      (ControlCallback ThrustToPwmDouble ⟨false⟩ msg).angular.z = 0) := by
  simp [ControlCallback, Twist.init]

/-- C9 (failing input): a single takeoff request, or a single land request,
writes the flag and then flows off the end of its `bool` handler without a
`return`, so the request has no defined outcome and no twist is determined for
the control message that follows it. -/
theorem publishAfter_single_request_undefined (ThrustToPwmDouble : α → α)
    (self : CmdVelConverter) (msg : Control α) :
    TakeoffService self = Outcome.flowedOffEnd ⟨true⟩ ∧
      LandService self = Outcome.flowedOffEnd ⟨false⟩ ∧
      publishAfter ThrustToPwmDouble self [Request.takeoff] msg = none ∧
      publishAfter ThrustToPwmDouble self [Request.land] msg = none := by
  refine ⟨rfl, rfl, ?_, ?_⟩
  · simp [publishAfter, serveAll, serve, handler, TakeoffService]
  · simp [publishAfter, serveAll, serve, handler, LandService]

end GateClaims

end Crazyflie
